import Mathlib

/-!
Verification of the VBVR-DataFactory task-processing core.

This file embeds the sample-renaming, deduplication, upload and task-validation
logic of the repository (src/src/utils.py, src/vmdatawheel/core/validator.py,
src/vbvrdatafactory/core/uploader.py, src/vbvrdatafactory/core/models.py,
src/vbvrdatafactory/lambda_handler/handler.py) as executable Lean definitions,
and proves the testable properties of the specification against them.

The local filesystem state of one domain-task directory is modelled as a list
of entries (name, directory flag, immediate children names).  Python errors
(TypeError from a mixed-type sort comparison, OSError from rmdir/rename) are
modelled with an explicit error type.
-/

/-- A Python-level exception relevant to the embedded code paths. -/
inductive PyError where
  | typeError
  | osError
  | valueError
  deriving DecidableEq, Repr

/-- One immediate child of a domain-task directory: its local name, whether it
is a directory, and (for directories) the names of its immediate children.
Embeds the view of the filesystem that `rename_samples` observes. -/
structure Entry where
  name  : String
  isDir : Bool
  files : List String
  deriving DecidableEq, Repr

/-- Decimal digit characters of a natural number, fuel-indexed so that the
definition is structurally recursive (and hence kernel-computable). -/
def natDigitsAux : Nat → Nat → List Char
  | 0, _ => []
  | fuel + 1, n =>
    if n < 10 then [Nat.digitChar n]
    else natDigitsAux fuel (n / 10) ++ [Nat.digitChar (n % 10)]

/-- Decimal digit characters of a natural number (no leading zeros). -/
def natDigits (n : Nat) : List Char :=
  natDigitsAux (n + 1) n

/-- Digits of `n`, left-padded with zeros to minimum width `w`.
Embeds Python `f"{n:0{w}d}"` for non-negative `n`. -/
def padDigits (w : Nat) (n : Nat) : List Char :=
  List.replicate (w - (natDigits n).length) '0' ++ natDigits n

/-- Embeds the Python format `f"{n:05d}"` for a non-negative `n`:
zero-padded to a MINIMUM width of five characters. -/
def pad5 (n : Nat) : String :=
  String.mk (padDigits 5 n)

/-- Embeds the Python format `f"{i:05d}"` for a possibly negative `i`:
the sign counts towards the width, so `f"{-1:05d}" = "-0001"`. -/
def pad5Int (i : Int) : String :=
  if i < 0 then String.mk ('-' :: padDigits 4 i.natAbs) else pad5 i.toNat

/-- Value of the last maximal run of decimal digits in a string, if any.
Embeds `re.findall(r"\d+", name)` followed by `int(numbers[-1])` in
`get_sort_key` (src/src/utils.py, src/vmdatawheel/core/validator.py). -/
def lastDigitRun (s : String) : Option Nat :=
  let p := s.data.foldl
    (fun (p : Option Nat × Option Nat) c =>
      if c.isDigit then (some (10 * p.1.getD 0 + (c.toNat - 48)), p.2)
      else
        match p.1 with
        | some v => (none, some v)
        | none => (none, p.2))
    (none, none)
  match p.1 with
  | some v => some v
  | none => p.2

/-- The Python sort key of `get_sort_key`: the integer value of the last digit
run when the name bears digits, otherwise the name itself. -/
def sortKey (name : String) : Nat ⊕ String :=
  match lastDigitRun name with
  | some v => Sum.inl v
  | none => Sum.inr name

/-- Comparison of two Python sort keys.  Homogeneous pairs compare as Python
`int <= int` / `str <= str`; the heterogeneous cases are never exercised
because CPython raises `TypeError` first (see `sortEntries`). -/
def keyLe : Nat ⊕ String → Nat ⊕ String → Prop
  | Sum.inl a, Sum.inl b => a ≤ b
  | Sum.inr a, Sum.inr b => a ≤ b
  | Sum.inl _, Sum.inr _ => True
  | Sum.inr _, Sum.inl _ => False

instance : DecidableRel keyLe := fun a b => by
  cases a <;> cases b <;> simp only [keyLe] <;> infer_instance

/-- Entry comparison by Python sort key. -/
def entryLe (e1 e2 : Entry) : Prop :=
  keyLe (sortKey e1.name) (sortKey e2.name)

instance : DecidableRel entryLe := fun e1 e2 => by
  unfold entryLe; infer_instance

instance : IsTotal Entry entryLe where
  total e1 e2 := by
    unfold entryLe
    cases sortKey e1.name <;> cases sortKey e2.name <;>
      simp only [keyLe, or_true, true_or]
    · exact Nat.le_total _ _
    · exact le_total _ _

instance : IsTrans Entry entryLe where
  trans e1 e2 e3 := by
    unfold entryLe
    cases sortKey e1.name <;> cases sortKey e2.name <;> cases sortKey e3.name <;>
      simp only [keyLe, true_implies, false_implies, implies_true]
    · exact Nat.le_trans
    · exact le_trans

/-- True when the listing holds both an int-keyed and a str-keyed entry.
Any comparison sort must then compare an `int` with a `str` at some point,
so CPython's `list.sort` raises `TypeError`. -/
def mixedKeys (l : List Entry) : Bool :=
  (l.any fun e => (sortKey e.name).isLeft) && (l.any fun e => (sortKey e.name).isRight)

/-- Embeds `task_dirs.sort(key=get_sort_key)`: `TypeError` on mixed key types,
otherwise the unique stable sort by key (CPython's Timsort is stable, and a
stable sort by a given key is unique, so any stable sort models it). -/
def sortEntries (l : List Entry) : Except PyError (List Entry) :=
  if mixedKeys l then Except.error PyError.typeError
  else Except.ok (List.insertionSort entryLe l)

/-- Current entry at a path name, embedding a filesystem lookup of
`domain_task_dir / name`. -/
def findEntry (fs : List Entry) (n : String) : Option Entry :=
  fs.find? (fun e => e.name == n)

/-- Embeds `Path.rmdir` restricted to the success case bookkeeping: the entry
named `n` disappears.  (`rmdir` itself only succeeds on an empty directory;
the caller checks that.) -/
def fsRemove (fs : List Entry) (n : String) : List Entry :=
  fs.filter (fun e => e.name != n)

/-- Rename the entry named `src` to `tgt` in place. -/
def fsRename (fs : List Entry) (src tgt : String) : List Entry :=
  fs.map (fun e => if e.name == src then { e with name := tgt } else e)

/-- Embeds POSIX `os.rename(src, tgt)` as used by `Path.rename`:
renaming onto itself succeeds; onto a free name succeeds; onto an existing
empty directory succeeds by replacing it; onto an existing non-empty
directory or a file raises `OSError`. -/
def osRename (fs : List Entry) (src tgt : String) : Except PyError (List Entry) :=
  if src == tgt then Except.ok fs
  else
    match findEntry fs tgt with
    | none => Except.ok (fsRename fs src tgt)
    | some e2 =>
      if e2.isDir && e2.files.isEmpty then Except.ok (fsRename (fsRemove fs tgt) src tgt)
      else Except.error PyError.osError

/-- Character-level suffix test, embedding Python `str.endswith` (which the
glob patterns `*.png` / `*.txt` / `*.mp4` amount to on child names). -/
def strEndsWith (s sfx : String) : Bool :=
  List.isSuffixOf sfx.data s.data

/-- Embeds the per-directory check `any(sample_dir.glob("*.png")) or .txt or .mp4`
of `rename_samples`: the directory holds at least one recognized content file. -/
def hasTaskFiles (e : Entry) : Bool :=
  e.files.any (fun f => strEndsWith f ".png" || strEndsWith f ".txt" || strEndsWith f ".mp4")

/-- The body of the `for task_id_dir in task_dirs:` loop of `rename_samples`
(src/src/utils.py lines 108-156, src/vmdatawheel/core/validator.py lines
106-141).  `ns` are the names of the sorted listing still to process, `idx`
is `start_index + local_index`, `fs` the current directory contents.
`swallow` selects the utils.py variant, whose `rmdir` failure on a non-empty
directory is swallowed by `except Exception: pass`; the validator variant
(`swallow = false`) lets that `OSError` propagate.  Returns the value of
`renamed_samples` (or the propagated error) together with the final
filesystem state. -/
def renameLoop (swallow : Bool) : List String → Nat → List Entry →
    Except PyError (List String) × List Entry
  | [], _, fs => (Except.ok [], fs)
  | n :: rest, idx, fs =>
    match findEntry fs n with
    | none => renameLoop swallow rest idx fs
    | some e =>
      if e.isDir then
        if hasTaskFiles e then
          match osRename fs n (pad5 idx) with
          | Except.error err => (Except.error err, fs)
          | Except.ok fs2 =>
            let res := renameLoop swallow rest (idx + 1) fs2
            (match res.1 with
             | Except.ok ids => Except.ok (pad5 idx :: ids)
             | Except.error err => Except.error err,
             res.2)
        else
          if e.files.isEmpty then renameLoop swallow rest idx (fsRemove fs n)
          else if swallow then renameLoop swallow rest idx fs
          else (Except.error PyError.osError, fs)
      else renameLoop swallow rest idx fs

/-- Common core of both `rename_samples` variants: list the directory, sort by
`get_sort_key` (raising `TypeError` on mixed key types), then walk the sorted
listing renaming usable sample directories to consecutive zero-padded global
IDs.  Returns the renamed-ID list (or error) and the final directory state. -/
def rename_samples_core (swallow : Bool) (entries : List Entry) (start : Nat) :
    Except PyError (List String) × List Entry :=
  match sortEntries entries with
  | Except.error e => (Except.error e, entries)
  | Except.ok sorted => renameLoop swallow (sorted.map Entry.name) start entries

namespace Utils

/-- Embeds `rename_samples` of src/src/utils.py (rmdir failures swallowed). -/
def rename_samples (entries : List Entry) (start : Nat) :
    Except PyError (List String) × List Entry :=
  rename_samples_core true entries start

end Utils

namespace Validator

/-- Embeds `rename_samples` of src/vmdatawheel/core/validator.py (no
try-except: rmdir and rename failures propagate). -/
def rename_samples (entries : List Entry) (start : Nat) :
    Except PyError (List String) × List Entry :=
  rename_samples_core false entries start

end Validator

/-- One element of the `uploaded_samples` result list of `upload_samples`:
the dict `{"sample_id": ..., "files_uploaded": ...}`. -/
structure UploadEntry where
  sample_id : String
  files_uploaded : Nat
  deriving DecidableEq, Repr

/-- Embeds the archive name computation of `S3Uploader.upload_samples`
(src/vbvrdatafactory/core/uploader.py lines 140-141):
`end_index = start_index + len(renamed_samples) - 1` and
`f"{task_type}_{start_index:05d}-{end_index:05d}.tar.gz"`. -/
def tarFilename (task_type : String) (start_index : Nat) (count : Nat) : String :=
  task_type ++ "_" ++ pad5 start_index ++ "-"
    ++ pad5Int ((start_index : Int) + count - 1) ++ ".tar.gz"

namespace S3Uploader

/-- Embeds `S3Uploader.upload_samples` (src/vbvrdatafactory/core/uploader.py
lines 106-168), the most recent uploader variant.  `fs` is the current
contents of `domain_task_dir`.  Returns the `uploaded_samples` list, the
optional tar file name, and the list of S3 object keys put (one key per
`upload_file` call: one archive object in tar mode, one object per sample
file in files mode; a sample whose directory no longer exists is skipped). -/
def upload_samples (fs : List Entry) (renamed_samples : List String)
    (task_type : String) (task_folder : String) (start_index : Nat)
    (output_format : String) : List UploadEntry × Option String × List String :=
  if output_format == "tar" then
    (renamed_samples.map (fun sample_id => ⟨sample_id, 0⟩),
     some (tarFilename task_type start_index renamed_samples.length),
     ["questions/" ++ tarFilename task_type start_index renamed_samples.length])
  else
    let found := renamed_samples.filterMap
      (fun sample_id => (findEntry fs sample_id).map (fun e => (sample_id, e)))
    (found.map (fun p => ⟨p.1, p.2.files.length⟩),
     none,
     found.foldr
       (fun p acc =>
         p.2.files.map
           (fun f => "questions/" ++ task_type ++ "/" ++ task_folder ++ "/" ++ p.1 ++ "/" ++ f)
         ++ acc)
       [])

end S3Uploader

/-- Validation error for an incoming task message, one constructor per
`TaskMessage` field constraint of src/vbvrdatafactory/core/models.py. -/
inductive VErr where
  | badType
  | badNumSamples
  | badStartIndex
  | badSeed
  | badOutputFormat
  deriving DecidableEq, Repr

/-- Embeds the validated `TaskMessage` of src/vbvrdatafactory/core/models.py. -/
structure TaskMessage where
  type : String
  num_samples : Int
  start_index : Int
  seed : Option Int
  output_format : String
  output_bucket : Option String
  deriving DecidableEq, Repr

/-- An incoming raw task record before Pydantic validation (fields typed,
presence optional). -/
structure RawTask where
  type? : Option String
  num_samples? : Option Int
  start_index? : Option Int
  seed? : Option Int
  output_format? : Option String
  output_bucket? : Option String
  deriving DecidableEq, Repr

/-- Pydantic `seed` constraint: absent, or a non-negative integer. -/
def seedValid : Option Int → Bool
  | none => true
  | some s => decide (0 ≤ s)

/-- Pydantic `output_format` constraint: the pattern `^(files|tar)$`. -/
def formatValid (f : String) : Bool :=
  f == "files" || f == "tar"

/-- Embeds Pydantic validation of `TaskMessage` (src/vbvrdatafactory/core/
models.py lines 9-17): `type` non-empty, `0 < num_samples <= 1000`,
`start_index >= 0` (default 0), `seed >= 0` when given, `output_format`
matching `^(files|tar)$` (default "files"). -/
def TaskMessage.validate (r : RawTask) : Except VErr TaskMessage :=
  match r.type? with
  | none => Except.error VErr.badType
  | some t =>
    if t.length < 1 then Except.error VErr.badType
    else
      match r.num_samples? with
      | none => Except.error VErr.badNumSamples
      | some n =>
        if n ≤ 0 ∨ 1000 < n then Except.error VErr.badNumSamples
        else if r.start_index?.getD 0 < 0 then Except.error VErr.badStartIndex
        else if seedValid r.seed? = false then Except.error VErr.badSeed
        else if formatValid (r.output_format?.getD "files") = false then
          Except.error VErr.badOutputFormat
        else Except.ok ⟨t, n, r.start_index?.getD 0, r.seed?,
          r.output_format?.getD "files", r.output_bucket?⟩

/-- An observable side effect of processing one task record.  The only event
the validation claims need is the start of the external generator
subprocess (`GeneratorRunner.run`). -/
inductive Event where
  | generatorRun (generator : String) (num_samples : Int) (seed : Option Int)
  deriving DecidableEq, Repr

/-- Embeds the per-record control flow of `handler` (src/vbvrdatafactory/
lambda_handler/handler.py lines 45-52): the record is parsed and validated
by Pydantic first; only on success does `process_task` run, whose first
externally visible action in `_process_samples` is starting the generator
subprocess (`runner.run`).  Returns the emitted events alongside the
validation outcome; `runGen` abstracts whatever the generator then does. -/
def handler_record (r : RawTask) (runGen : TaskMessage → List Event) :
    List Event × Except VErr TaskMessage :=
  match TaskMessage.validate r with
  | Except.error e => ([], Except.error e)
  | Except.ok t =>
    (Event.generatorRun t.type t.num_samples t.seed :: runGen t, Except.ok t)

/-- Modelled from the spec: the dedup ledger of §4.3.  The module
`vbvrdatafactory/core/dedup.py` (class `DedupChecker`, backed by a DynamoDB
table keyed by `(generator_name, param_hash)` with a conditional put) is not
present in the source tree; only its tests (src/tests/test_dedup.py) are.
A registry row `(generator_name, param_hash, sample_id)` is one ledger
entry; lookup is by the composite key. -/
def Registry := List (String × String × String)

/-- Modelled from the spec: read back the row for `(g, h)`, returning the
owning `sample_id` if the key exists. -/
def lookupReg (reg : Registry) (g h : String) : Option String :=
  (reg.find? (fun row => row.1 == g && row.2.1 == h)).map (fun row => row.2.2)

/-- Modelled from the spec (§4.3, confirmed by src/tests/test_dedup.py):
`check_and_register(generator, content_hash, sample_id)` attempts a
conditional insert that succeeds only if no row exists for the key; on
success return `true`.  If the key exists, read back the owner: equal
`sample_id` means idempotent re-registration (`true`), a different owner
means a genuine duplicate (`false`).  Returns the flag and the updated
registry. -/
def check_and_register (reg : Registry) (g h sample_id : String) : Bool × Registry :=
  match lookupReg reg g h with
  | none => (true, (g, h, sample_id) :: reg)
  | some owner => (owner == sample_id, reg)

/-- Modelled from the spec (§4.4) and src/tests/test_handler_dedup.py: one
dedup pass of `_dedup_samples` over sample IDs.  `hashOf` gives each
sample's `param_hash` from its `metadata.json` (absence makes the sample
dedup-exempt, always accepted).  Returns accepted IDs, duplicate IDs, and
the updated registry. -/
def dedupRound (g : String) (hashOf : String → Option String) (reg : Registry) :
    List String → List String × List String × Registry
  | [] => ([], [], reg)
  | sample_id :: rest =>
    match hashOf sample_id with
    | none =>
      let st := dedupRound g hashOf reg rest
      (sample_id :: st.1, st.2.1, st.2.2)
    | some h =>
      let cr := check_and_register reg g h sample_id
      let st := dedupRound g hashOf cr.2 rest
      if cr.1 then (sample_id :: st.1, st.2.1, st.2.2)
      else (st.1, sample_id :: st.2.1, st.2.2)

/-- Modelled from the spec (§4.4): the bounded regeneration loop.  In round
`r ≥ 1` the duplicate slots are regenerated (same IDs, content given by
`hashes r`) and re-checked; when the round ceiling is exhausted, still
unresolved duplicates are dropped from the result rather than looping. -/
def dedupLoop (g : String) (hashes : Nat → String → Option String) :
    Nat → Nat → List String → List String → Registry → List String × Registry
  | 0, _, acc, _, reg => (acc, reg)
  | fuel + 1, round, acc, dups, reg =>
    if dups.isEmpty then (acc, reg)
    else
      let st := dedupRound g (hashes round) reg dups
      dedupLoop g hashes fuel (round + 1) (acc ++ st.1) st.2.1 st.2.2

/-- Modelled from the spec (§4.4): `_dedup_samples` — check every renamed
sample against the registry (round 0), then run up to `maxRounds`
regeneration rounds on the duplicates.  Returns the accepted sample IDs and
the final registry. -/
def dedup_samples (g : String) (hashes : Nat → String → Option String)
    (maxRounds : Nat) (ids : List String) (reg : Registry) :
    List String × Registry :=
  let st := dedupRound g (hashes 0) reg ids
  dedupLoop g hashes maxRounds 1 st.1 st.2.1 st.2.2

/-- Modelled from the spec (§4.5): the per-domain-task-directory loop of the
dedup-capable `_process_samples`.  Each batch is deduplicated (when
`dedupOn`) against the shared registry, which is threaded through the
batches; the surviving sample IDs are concatenated in order. -/
def process_batches (g : String) (hashes : Nat → String → Option String)
    (maxRounds : Nat) (dedupOn : Bool) :
    List (List String) → Registry → List String × Registry
  | [], reg => ([], reg)
  | batch :: rest, reg =>
    let r := if dedupOn then dedup_samples g hashes maxRounds batch reg
             else (batch, reg)
    let st := process_batches g hashes maxRounds dedupOn rest r.2
    (r.1 ++ st.1, st.2)

/-- Modelled from the spec (§4.5) and src/tests/test_handler_dedup.py
(`test_dedup_all_duplicates_no_error`): the dedup-capable `_process_samples`
of the lambda handler, which is absent from the source tree (the handler
under src/vbvrdatafactory/lambda_handler/handler.py lines 131-160 has the
same found-any/raise structure but no dedup stage).  `batches` are the
per-domain-task-directory results of `rename_samples`.  A run where no
directory yielded any renamed sample raises `ValueError` (fatal); otherwise
each batch is deduplicated (when `dedupOn`) and the surviving samples are
uploaded, so an all-duplicate run succeeds with an empty result. -/
def process_samples_dedup (g : String) (batches : List (List String))
    (hashes : Nat → String → Option String) (reg : Registry) (dedupOn : Bool)
    (maxRounds : Nat) : Except PyError (Nat × List String) :=
  if batches.all List.isEmpty then Except.error PyError.valueError
  else
    let uploaded := (process_batches g hashes maxRounds dedupOn batches reg).1
    Except.ok (uploaded.length, uploaded)

/-! ### Decimal rendering lemmas -/

/-- Decimal value of a digit-character list (leading zeros ignored). -/
def digitsVal (l : List Char) : Nat :=
  l.foldl (fun a c => 10 * a + (c.toNat - 48)) 0

theorem natDigitsAux_fuel {f1 f2 n : Nat} (h1 : n < f1) (h2 : n < f2) :
    natDigitsAux f1 n = natDigitsAux f2 n := by
  induction n using Nat.strong_induction_on generalizing f1 f2 with
  | _ n ih =>
    match f1, f2 with
    | fa + 1, fb + 1 =>
      simp only [natDigitsAux]
      by_cases h : n < 10
      · simp [h]
      · simp only [h, if_false]
        have hdiv : n / 10 < n := Nat.div_lt_self (by omega) (by omega)
        rw [ih (n / 10) hdiv (show n / 10 < fa by omega) (show n / 10 < fb by omega)]

theorem natDigits_unfold (n : Nat) :
    natDigits n = if n < 10 then [Nat.digitChar n]
                  else natDigits (n / 10) ++ [Nat.digitChar (n % 10)] := by
  conv_lhs => rw [show natDigits n = natDigitsAux (n + 1) n from rfl]
  rw [natDigitsAux]
  by_cases h : n < 10
  · simp [h]
  · simp only [h, if_false]
    have hstep : natDigitsAux n (n / 10) = natDigits (n / 10) :=
      natDigitsAux_fuel (show n / 10 < n by omega) (Nat.lt_succ_self _)
    rw [hstep]

theorem digitChar_toNat {d : Nat} (h : d < 10) : (Nat.digitChar d).toNat = 48 + d := by
  interval_cases d <;> rfl

theorem digitsVal_natDigits (n : Nat) : digitsVal (natDigits n) = n := by
  induction n using Nat.strong_induction_on with
  | _ n ih =>
    rw [natDigits_unfold]
    by_cases h : n < 10
    · simp [h, digitsVal, digitChar_toNat h]
    · have hdiv : n / 10 < n := Nat.div_lt_self (by omega) (by omega)
      simp only [h, if_false, digitsVal, List.foldl_append]
      have : digitsVal (natDigits (n / 10)) = n / 10 := ih _ hdiv
      simp only [digitsVal] at this
      rw [this, List.foldl_cons, List.foldl_nil,
        digitChar_toNat (Nat.mod_lt _ (by omega))]
      omega

theorem digitsVal_replicate_zero (k : Nat) (l : List Char) :
    digitsVal (List.replicate k '0' ++ l) = digitsVal l := by
  induction k with
  | zero => simp
  | succ k ih =>
    simp only [List.replicate_succ, List.cons_append, digitsVal, List.foldl_cons]
    have : (10 * 0 + ('0'.toNat - 48)) = 0 := rfl
    rw [this]
    exact ih

theorem digitsVal_pad5 (n : Nat) : digitsVal (pad5 n).data = n := by
  show digitsVal (padDigits 5 n) = n
  rw [padDigits, digitsVal_replicate_zero, digitsVal_natDigits]

theorem pad5_injective {a b : Nat} (h : pad5 a = pad5 b) : a = b := by
  have := congrArg (fun s => digitsVal s.data) h
  simpa [digitsVal_pad5] using this

theorem natDigits_length_le {k n : Nat} (hk : 0 < k) (h : n < 10 ^ k) :
    (natDigits n).length ≤ k := by
  induction k generalizing n with
  | zero => omega
  | succ k ih =>
    rw [natDigits_unfold]
    by_cases h10 : n < 10
    · simp [h10]
    · have hk0 : 0 < k := by
        by_contra hc
        have : k = 0 := by omega
        subst this
        simp at h
        omega
      simp only [h10, if_false, List.length_append, List.length_cons,
        List.length_nil]
      have hlt : n / 10 < 10 ^ k := by
        rw [Nat.div_lt_iff_lt_mul (by omega)]
        calc n < 10 ^ (k + 1) := h
        _ = 10 ^ k * 10 := by ring
      have := ih hk0 hlt
      omega

theorem pad5_length {n : Nat} (h : n < 100000) : (pad5 n).length = 5 := by
  have hle : (natDigits n).length ≤ 5 :=
    natDigits_length_le (by norm_num) (by norm_num; omega)
  simp only [pad5, padDigits, String.length_mk, List.length_append,
    List.length_replicate]
  omega

/-! ### Filesystem lookup lemmas -/

theorem findEntry_name {fs : List Entry} {n : String} {e : Entry}
    (h : findEntry fs n = some e) : e.name = n := by
  have := List.find?_some h
  simpa using this

theorem findEntry_mem {fs : List Entry} {n : String} {e : Entry}
    (h : findEntry fs n = some e) : e ∈ fs :=
  List.mem_of_find?_eq_some h

theorem findEntry_of_mem {fs : List Entry} {e : Entry}
    (hnd : (fs.map Entry.name).Nodup) (hmem : e ∈ fs) :
    findEntry fs e.name = some e := by
  induction fs with
  | nil => simp at hmem
  | cons a rest ih =>
    simp only [List.map_cons, List.nodup_cons, List.mem_map] at hnd
    rcases List.mem_cons.mp hmem with h | h
    · subst h
      simp [findEntry]
    · have hne : a.name ≠ e.name := by
        intro hc
        exact hnd.1 ⟨e, h, hc.symm⟩
      simp only [findEntry, List.find?_cons]
      rw [show (a.name == e.name) = false from beq_eq_false_iff_ne.mpr hne]
      exact ih hnd.2 h

theorem fsRename_cons {a : Entry} {rest : List Entry} {src tgt : String} :
    fsRename (a :: rest) src tgt =
      (if a.name == src then { a with name := tgt } else a) :: fsRename rest src tgt := rfl

theorem findEntry_fsRename_of_ne {fs : List Entry} {src tgt m : String}
    (h1 : m ≠ src) (h2 : m ≠ tgt) :
    findEntry (fsRename fs src tgt) m = findEntry fs m := by
  induction fs with
  | nil => rfl
  | cons a rest ih =>
    rw [fsRename_cons]
    by_cases ha : a.name = src
    · rw [if_pos (beq_iff_eq.mpr ha)]
      rw [findEntry, List.find?_cons_of_neg _ (by simp; exact Ne.symm h2),
        findEntry, List.find?_cons_of_neg _ (by simp [ha]; exact Ne.symm h1)]
      exact ih
    · rw [if_neg (by simpa using ha)]
      by_cases hm : a.name = m
      · rw [findEntry, List.find?_cons_of_pos _ (by simpa using hm),
          findEntry, List.find?_cons_of_pos _ (by simpa using hm)]
      · rw [findEntry, List.find?_cons_of_neg _ (by simpa using hm),
          findEntry, List.find?_cons_of_neg _ (by simpa using hm)]
        exact ih

theorem findEntry_fsRename_none {fs : List Entry} {src tgt m : String}
    (h2 : m ≠ tgt) (h0 : findEntry fs m = none) :
    findEntry (fsRename fs src tgt) m = none := by
  induction fs with
  | nil => rfl
  | cons a rest ih =>
    have hm : a.name ≠ m := by
      intro hc
      rw [findEntry, List.find?_cons_of_pos _ (by simpa using hc)] at h0
      exact Option.noConfusion h0
    have h0rest : findEntry rest m = none := by
      rw [findEntry, List.find?_cons_of_neg _ (by simpa using hm)] at h0
      exact h0
    rw [fsRename_cons]
    by_cases ha : a.name = src
    · rw [if_pos (beq_iff_eq.mpr ha)]
      rw [findEntry, List.find?_cons_of_neg _ (by simp; exact Ne.symm h2)]
      exact ih h0rest
    · rw [if_neg (by simpa using ha)]
      rw [findEntry, List.find?_cons_of_neg _ (by simpa using hm)]
      exact ih h0rest

theorem findEntry_fsRemove_self {fs : List Entry} {x : String} :
    findEntry (fsRemove fs x) x = none := by
  rw [findEntry, List.find?_eq_none]
  intro e he
  simp only [fsRemove, List.mem_filter, bne_iff_ne, ne_eq] at he
  simpa using he.2

theorem findEntry_fsRemove_of_ne {fs : List Entry} {x m : String} (h : m ≠ x) :
    findEntry (fsRemove fs x) m = findEntry fs m := by
  induction fs with
  | nil => rfl
  | cons a rest ih =>
    simp only [fsRemove, List.filter_cons]
    by_cases ha : a.name = x
    · simp only [ha, bne_self_eq_false, if_false]
      simp only [findEntry, List.find?_cons,
        show (a.name == m) = false from
          beq_eq_false_iff_ne.mpr (by rw [ha]; exact Ne.symm h)]
      exact ih
    · simp only [show (a.name != x) = true from bne_iff_ne.mpr ha, if_true]
      simp only [findEntry, List.find?_cons]
      by_cases hm : a.name = m
      · rw [show (a.name == m) = true from beq_iff_eq.mpr hm]
      · rw [show (a.name == m) = false from beq_eq_false_iff_ne.mpr hm]
        exact ih

theorem findEntry_fsRemove_none {fs : List Entry} {x m : String}
    (h0 : findEntry fs m = none) : findEntry (fsRemove fs x) m = none := by
  by_cases h : m = x
  · subst h; exact findEntry_fsRemove_self
  · rw [findEntry_fsRemove_of_ne h]; exact h0

/-! ### renameLoop step lemmas -/

/-- Whether `fs` currently holds a usable sample directory under name `n`. -/
def usableAt (fs : List Entry) (n : String) : Bool :=
  match findEntry fs n with
  | some e => e.isDir && hasTaskFiles e
  | none => false

theorem renameLoop_nil {swallow : Bool} {idx : Nat} {fs : List Entry} :
    renameLoop swallow [] idx fs = (Except.ok [], fs) := rfl

theorem renameLoop_cons_none {swallow : Bool} {n : String} {rest : List String}
    {idx : Nat} {fs : List Entry} (h : findEntry fs n = none) :
    renameLoop swallow (n :: rest) idx fs = renameLoop swallow rest idx fs := by
  simp [renameLoop, h]

theorem renameLoop_cons_notdir {swallow : Bool} {n : String} {rest : List String}
    {idx : Nat} {fs : List Entry} {e : Entry} (h : findEntry fs n = some e)
    (hd : e.isDir = false) :
    renameLoop swallow (n :: rest) idx fs = renameLoop swallow rest idx fs := by
  simp [renameLoop, h, hd]

theorem renameLoop_cons_usable {swallow : Bool} {n : String} {rest : List String}
    {idx : Nat} {fs fs2 : List Entry} {e : Entry} (h : findEntry fs n = some e)
    (hd : e.isDir = true) (hu : hasTaskFiles e = true)
    (hr : osRename fs n (pad5 idx) = Except.ok fs2) :
    renameLoop swallow (n :: rest) idx fs =
      (match (renameLoop swallow rest (idx + 1) fs2).1 with
       | Except.ok ids => Except.ok (pad5 idx :: ids)
       | Except.error err => Except.error err,
       (renameLoop swallow rest (idx + 1) fs2).2) := by
  simp [renameLoop, h, hd, hu, hr]

theorem renameLoop_cons_empty {swallow : Bool} {n : String} {rest : List String}
    {idx : Nat} {fs : List Entry} {e : Entry} (h : findEntry fs n = some e)
    (hd : e.isDir = true) (hu : hasTaskFiles e = false)
    (he : e.files.isEmpty = true) :
    renameLoop swallow (n :: rest) idx fs =
      renameLoop swallow rest idx (fsRemove fs n) := by
  simp [renameLoop, h, hd, hu, he]

theorem renameLoop_cons_skip {n : String} {rest : List String}
    {idx : Nat} {fs : List Entry} {e : Entry} (h : findEntry fs n = some e)
    (hd : e.isDir = true) (hu : hasTaskFiles e = false)
    (he : e.files.isEmpty = false) :
    renameLoop true (n :: rest) idx fs = renameLoop true rest idx fs := by
  simp [renameLoop, h, hd, hu, he]

/-- Number of names in `ns` currently naming a usable sample directory. -/
def countUsable (fs : List Entry) (ns : List String) : Nat :=
  ns.countP (fun n => usableAt fs n)

theorem countUsable_cons {fs : List Entry} {n : String} {rest : List String} :
    countUsable fs (n :: rest) =
      countUsable fs rest + (if usableAt fs n then 1 else 0) := by
  simp [countUsable, List.countP_cons]

theorem usableAt_congr {fs1 fs2 : List Entry} {n : String}
    (h : findEntry fs1 n = findEntry fs2 n) : usableAt fs1 n = usableAt fs2 n := by
  rw [usableAt, usableAt, h]

theorem countUsable_congr {fs1 fs2 : List Entry} {ns : List String}
    (h : ∀ n ∈ ns, findEntry fs1 n = findEntry fs2 n) :
    countUsable fs1 ns = countUsable fs2 ns := by
  unfold countUsable
  apply List.countP_congr
  intro n hn
  rw [usableAt_congr (h n hn)]

/-- Main invariant of the renaming loop: when every listed name is a directory,
the names are distinct and no name collides with an upcoming target ID, the
loop returns exactly the consecutive zero-padded IDs of its usable
directories; names absent and untargeted stay absent; and empty unusable
directories are deleted. -/
theorem renameLoop_spec (swallow : Bool) :
    ∀ (ns : List String) (idx : Nat) (fs : List Entry),
    (∀ n ∈ ns, ∃ e, findEntry fs n = some e ∧ e.isDir = true) →
    ns.Nodup →
    (swallow = true ∨
      ∀ n ∈ ns, ∀ e, findEntry fs n = some e → hasTaskFiles e = false → e.files = []) →
    (∀ n ∈ ns, ∀ k, idx ≤ k → k < idx + countUsable fs ns → n ≠ pad5 k) →
    (∀ k, idx ≤ k → k < idx + countUsable fs ns → findEntry fs (pad5 k) = none) →
    (renameLoop swallow ns idx fs).1 =
        Except.ok ((List.range' idx (countUsable fs ns)).map pad5)
      ∧ (∀ m, findEntry fs m = none →
          (∀ k, idx ≤ k → k < idx + countUsable fs ns → m ≠ pad5 k) →
          findEntry (renameLoop swallow ns idx fs).2 m = none)
      ∧ (∀ n ∈ ns, ∀ e, findEntry fs n = some e → hasTaskFiles e = false →
          e.files = [] → findEntry (renameLoop swallow ns idx fs).2 n = none) := by
  intro ns
  induction ns with
  | nil =>
    intro idx fs _ _ _ _ _
    refine ⟨?_, ?_, ?_⟩
    · simp [renameLoop_nil, countUsable]
    · intro m hm _
      simpa [renameLoop_nil] using hm
    · intro n hn
      simp at hn
  | cons n rest ih =>
    intro idx fs Hall Hnd Hsw Hfresh Hfree
    obtain ⟨e, he, hdir⟩ := Hall n (List.mem_cons_self n rest)
    have hnotin : n ∉ rest := (List.nodup_cons.mp Hnd).1
    have hndrest : rest.Nodup := (List.nodup_cons.mp Hnd).2
    by_cases hu : hasTaskFiles e = true
    · -- usable directory: it is renamed to pad5 idx
      have husable : usableAt fs n = true := by
        simp [usableAt, he, hdir, hu]
      have hU : countUsable fs (n :: rest) = countUsable fs rest + 1 := by
        rw [countUsable_cons, husable, if_pos rfl]
      have hpos : idx < idx + countUsable fs (n :: rest) := by omega
      have hne_tgt : n ≠ pad5 idx :=
        Hfresh n (List.mem_cons_self n rest) idx (Nat.le_refl idx) hpos
      have hfree_tgt : findEntry fs (pad5 idx) = none :=
        Hfree idx (Nat.le_refl idx) hpos
      have hr : osRename fs n (pad5 idx) = Except.ok (fsRename fs n (pad5 idx)) := by
        rw [osRename, if_neg (by simpa using hne_tgt), hfree_tgt]
      have hpres : ∀ n2 ∈ rest,
          findEntry (fsRename fs n (pad5 idx)) n2 = findEntry fs n2 := by
        intro n2 h2
        exact findEntry_fsRename_of_ne (by rintro rfl; exact hnotin h2)
          (Hfresh n2 (List.mem_cons_of_mem n h2) idx (Nat.le_refl idx) hpos)
      have hUrest : countUsable (fsRename fs n (pad5 idx)) rest = countUsable fs rest :=
        countUsable_congr hpres
      obtain ⟨IA, IB, IC⟩ := ih (idx + 1) (fsRename fs n (pad5 idx))
        (by
          intro n2 h2
          rw [hpres n2 h2]
          exact Hall n2 (List.mem_cons_of_mem n h2))
        hndrest
        (by
          rcases Hsw with hs | hs
          · exact Or.inl hs
          · refine Or.inr ?_
            intro n2 h2 e2 hf2
            rw [hpres n2 h2] at hf2
            exact hs n2 (List.mem_cons_of_mem n h2) e2 hf2)
        (by
          intro n2 h2 k hk1 hk2
          rw [hUrest] at hk2
          exact Hfresh n2 (List.mem_cons_of_mem n h2) k (by omega) (by omega))
        (by
          intro k hk1 hk2
          rw [hUrest] at hk2
          refine findEntry_fsRename_none ?_ (Hfree k (by omega) (by omega))
          intro hc
          exact absurd (pad5_injective hc) (by omega))
      rw [renameLoop_cons_usable he hdir hu hr]
      refine ⟨?_, ?_, ?_⟩
      · rw [IA, hUrest, hU, List.range'_succ]
        simp
      · intro m hm0 hmk
        refine IB m ?_ ?_
        · refine findEntry_fsRename_none ?_ hm0
          exact hmk idx (Nat.le_refl idx) hpos
        · intro k hk1 hk2
          rw [hUrest] at hk2
          exact hmk k (by omega) (by omega)
      · intro n1 h1 e1 hf1 ht1 hfe1
        rcases List.mem_cons.mp h1 with rfl | h1
        · rw [he] at hf1
          injection hf1 with hf1
          subst hf1
          rw [hu] at ht1
          exact absurd ht1 (by simp)
        · refine IC n1 h1 e1 ?_ ht1 hfe1
          rw [hpres n1 h1]
          exact hf1
    · -- no recognized content files
      have hu0 : hasTaskFiles e = false := by
        cases h : hasTaskFiles e
        · rfl
        · exact absurd h hu
      have husable : usableAt fs n = false := by
        simp [usableAt, he, hu0]
      have hU : countUsable fs (n :: rest) = countUsable fs rest := by
        rw [countUsable_cons, husable]
        simp
      by_cases hemp : e.files.isEmpty = true
      · -- empty directory: rmdir succeeds, entry disappears
        have hpres : ∀ n2 ∈ rest, findEntry (fsRemove fs n) n2 = findEntry fs n2 := by
          intro n2 h2
          exact findEntry_fsRemove_of_ne (by rintro rfl; exact hnotin h2)
        have hUrest : countUsable (fsRemove fs n) rest = countUsable fs rest :=
          countUsable_congr hpres
        obtain ⟨IA, IB, IC⟩ := ih idx (fsRemove fs n)
          (by
            intro n2 h2
            rw [hpres n2 h2]
            exact Hall n2 (List.mem_cons_of_mem n h2))
          hndrest
          (by
            rcases Hsw with hs | hs
            · exact Or.inl hs
            · refine Or.inr ?_
              intro n2 h2 e2 hf2
              rw [hpres n2 h2] at hf2
              exact hs n2 (List.mem_cons_of_mem n h2) e2 hf2)
          (by
            intro n2 h2 k hk1 hk2
            rw [hUrest] at hk2
            exact Hfresh n2 (List.mem_cons_of_mem n h2) k hk1 (by omega))
          (by
            intro k hk1 hk2
            rw [hUrest] at hk2
            exact findEntry_fsRemove_none (Hfree k hk1 (by omega)))
        rw [renameLoop_cons_empty he hdir hu0 hemp]
        refine ⟨?_, ?_, ?_⟩
        · rw [IA, hUrest, hU]
        · intro m hm0 hmk
          refine IB m (findEntry_fsRemove_none hm0) ?_
          intro k hk1 hk2
          rw [hUrest] at hk2
          exact hmk k hk1 (by omega)
        · intro n1 h1 e1 hf1 ht1 hfe1
          rcases List.mem_cons.mp h1 with rfl | h1
          · refine IB n1 findEntry_fsRemove_self ?_
            intro k hk1 hk2
            rw [hUrest] at hk2
            exact Hfresh n1 (List.mem_cons_self n1 rest) k hk1 (by omega)
          · refine IC n1 h1 e1 ?_ ht1 hfe1
            rw [hpres n1 h1]
            exact hf1
      · -- non-empty unusable directory
        have hemp0 : e.files.isEmpty = false := by
          cases h : e.files.isEmpty
          · rfl
          · exact absurd h hemp
        cases hsw : swallow
        · -- validator variant: ruled out by the side condition
          rcases Hsw with hs | hs
          · rw [hsw] at hs
            exact absurd hs (by simp)
          · have := hs n (List.mem_cons_self n rest) e he hu0
            rw [this] at hemp0
            simp [List.isEmpty] at hemp0
        · -- utils variant: rmdir failure swallowed, directory kept, loop continues
          obtain ⟨IA, IB, IC⟩ := ih idx fs
            (fun n2 h2 => Hall n2 (List.mem_cons_of_mem n h2))
            hndrest
            (by
              rcases Hsw with hs | hs
              · exact Or.inl hs
              · exact Or.inr fun n2 h2 e2 hf2 =>
                  hs n2 (List.mem_cons_of_mem n h2) e2 hf2)
            (by
              intro n2 h2 k hk1 hk2
              exact Hfresh n2 (List.mem_cons_of_mem n h2) k hk1 (by omega))
            (fun k hk1 hk2 => Hfree k hk1 (by omega))
          rw [hsw] at *
          rw [renameLoop_cons_skip he hdir hu0 hemp0]
          refine ⟨?_, ?_, ?_⟩
          · rw [IA, hU]
          · intro m hm0 hmk
            refine IB m hm0 ?_
            intro k hk1 hk2
            exact hmk k hk1 (by omega)
          · intro n1 h1 e1 hf1 ht1 hfe1
            rcases List.mem_cons.mp h1 with rfl | h1
            · rw [he] at hf1
              injection hf1 with hf1
              subst hf1
              rw [hfe1] at hemp0
              simp [List.isEmpty] at hemp0
            · exact IC n1 h1 e1 hf1 ht1 hfe1

/-! ### rename_samples top-level lemmas -/

/-- Number of usable sample directories in a listing. -/
def countEntriesUsable (entries : List Entry) : Nat :=
  entries.countP (fun e => e.isDir && hasTaskFiles e)

theorem mixedKeys_eq_false {l : List Entry}
    (Hdig : ∀ e ∈ l, (sortKey e.name).isLeft = true) : mixedKeys l = false := by
  unfold mixedKeys
  have : (l.any fun e => (sortKey e.name).isRight) = false := by
    rw [List.any_eq_false]
    intro e he
    rw [Bool.not_eq_true, Sum.isRight_eq_false]
    exact Hdig e he
  rw [this, Bool.and_false]

theorem sortEntries_ok {l : List Entry}
    (Hdig : ∀ e ∈ l, (sortKey e.name).isLeft = true) :
    sortEntries l = Except.ok (List.insertionSort entryLe l) := by
  rw [sortEntries, mixedKeys_eq_false Hdig]
  rfl

/-- Everything `rename_samples` (either variant) guarantees on a well-formed
listing: all entries directories, all names digit-bearing and distinct, no
name clashing with a target ID (and, for the validator variant, no non-empty
unusable directory).  The returned ID list is exactly the consecutive
zero-padded range, regardless of the listing order, and empty unusable
directories are deleted. -/
theorem rename_samples_core_spec (swallow : Bool) (entries : List Entry) (start : Nat)
    (Hdir : ∀ e ∈ entries, e.isDir = true)
    (Hdig : ∀ e ∈ entries, (sortKey e.name).isLeft = true)
    (Hnd : (entries.map Entry.name).Nodup)
    (Hsw : swallow = true ∨ ∀ e ∈ entries, hasTaskFiles e = false → e.files = [])
    (Hfresh : ∀ e ∈ entries, ∀ k, start ≤ k → k < start + countEntriesUsable entries →
      e.name ≠ pad5 k) :
    (rename_samples_core swallow entries start).1 =
        Except.ok ((List.range' start (countEntriesUsable entries)).map pad5)
      ∧ (∀ e ∈ entries, hasTaskFiles e = false → e.files = [] →
          findEntry (rename_samples_core swallow entries start).2 e.name = none) := by
  have hsorted : sortEntries entries = Except.ok (List.insertionSort entryLe entries) :=
    sortEntries_ok Hdig
  set s := List.insertionSort entryLe entries with hs
  have hperm : s.Perm entries := List.perm_insertionSort entryLe entries
  have hmem_s : ∀ e, e ∈ s ↔ e ∈ entries := fun e => hperm.mem_iff
  have hfind_of_mem : ∀ e ∈ entries, findEntry entries e.name = some e :=
    fun e he => findEntry_of_mem Hnd he
  have hcount : countUsable entries (s.map Entry.name) = countEntriesUsable entries := by
    rw [countUsable, List.countP_map]
    have h1 : List.countP ((fun n => usableAt entries n) ∘ Entry.name) s =
        List.countP (fun e => e.isDir && hasTaskFiles e) s := by
      apply List.countP_congr
      intro e he
      have : usableAt entries e.name = (e.isDir && hasTaskFiles e) := by
        rw [usableAt, hfind_of_mem e ((hmem_s e).mp he)]
      simp [Function.comp, this]
    rw [h1, hperm.countP_eq, countEntriesUsable]
  have hnames : ∀ n ∈ s.map Entry.name, ∃ e ∈ entries, e.name = n := by
    intro n hn
    obtain ⟨e, he, rfl⟩ := List.mem_map.mp hn
    exact ⟨e, (hmem_s e).mp he, rfl⟩
  obtain ⟨IA, IB, IC⟩ := renameLoop_spec swallow (s.map Entry.name) start entries
    (by
      intro n hn
      obtain ⟨e, he, rfl⟩ := hnames n hn
      exact ⟨e, hfind_of_mem e he, Hdir e he⟩)
    (by
      have : (s.map Entry.name).Perm (entries.map Entry.name) := hperm.map Entry.name
      exact this.symm.nodup Hnd)
    (by
      rcases Hsw with hs1 | hs1
      · exact Or.inl hs1
      · refine Or.inr ?_
        intro n _ e hf ht
        have hmem := findEntry_mem hf
        exact hs1 e hmem ht)
    (by
      intro n hn k hk1 hk2
      rw [hcount] at hk2
      obtain ⟨e, he, rfl⟩ := hnames n hn
      exact Hfresh e he k hk1 hk2)
    (by
      intro k hk1 hk2
      rw [hcount] at hk2
      rw [findEntry, List.find?_eq_none]
      intro e he
      simp only [Bool.not_eq_true, beq_eq_false_iff_ne, ne_eq]
      exact Hfresh e he k hk1 hk2)
  constructor
  · show (rename_samples_core swallow entries start).1 = _
    rw [rename_samples_core, hsorted]
    rw [IA, hcount]
  · intro e he ht hfe
    show findEntry (rename_samples_core swallow entries start).2 e.name = none
    rw [rename_samples_core, hsorted]
    refine IC e.name ?_ e (hfind_of_mem e he) ht hfe
    exact List.mem_map.mpr ⟨e, (hmem_s e).mpr he, rfl⟩

/-- Numeric sort key of an entry: value of the last digit run of its name
(0 when the name bears no digits). -/
def natKeyOf (e : Entry) : Nat :=
  (lastDigitRun e.name).getD 0

theorem lastDigitRun_of_sortKey_inl {n : String} {v : Nat}
    (h : sortKey n = Sum.inl v) : lastDigitRun n = some v := by
  unfold sortKey at h
  cases hc : lastDigitRun n <;> rw [hc] at h
  · exact Sum.noConfusion h
  · injection h with h
    rw [h]

/-- The sorted processing order of `rename_samples` is non-decreasing in the
numeric key when every name bears digits. -/
theorem insertionSort_key_monotone (entries : List Entry)
    (Hdig : ∀ e ∈ entries, (sortKey e.name).isLeft = true) :
    List.Pairwise (fun e1 e2 => natKeyOf e1 ≤ natKeyOf e2)
      (List.insertionSort entryLe entries) := by
  have hsorted : List.Sorted entryLe (List.insertionSort entryLe entries) :=
    List.sorted_insertionSort entryLe entries
  refine List.Pairwise.imp_of_mem ?_ hsorted
  intro a b ha hb hab
  have ha2 : (sortKey a.name).isLeft = true :=
    Hdig a ((List.perm_insertionSort entryLe entries).mem_iff.mp ha)
  have hb2 : (sortKey b.name).isLeft = true :=
    Hdig b ((List.perm_insertionSort entryLe entries).mem_iff.mp hb)
  obtain ⟨va, hva⟩ := Sum.isLeft_iff.mp ha2
  obtain ⟨vb, hvb⟩ := Sum.isLeft_iff.mp hb2
  rw [entryLe, hva, hvb] at hab
  rw [natKeyOf, natKeyOf, lastDigitRun_of_sortKey_inl hva,
    lastDigitRun_of_sortKey_inl hvb]
  exact hab

/-- C3, as written, fails on the code: with usable digit-bearing directories
"7" and "00008" and start index 8, the directory "7" must be renamed to the
global ID "00008", which is an existing non-empty directory, so the rename
raises OSError instead of returning the ID list. -/
theorem claim3_counterexample :
    Utils.rename_samples
        [⟨"7", true, ["a.png"]⟩, ⟨"00008", true, ["b.png"]⟩] 8 =
      (Except.error PyError.osError,
       [⟨"7", true, ["a.png"]⟩, ⟨"00008", true, ["b.png"]⟩]) := rfl

/-- On an all-usable, digit-named, collision-free listing, `rename_samples`
(utils.py variant) returns exactly the consecutive zero-padded global IDs. -/
theorem rename_ids_range (entries : List Entry) (start : Nat)
    (Hdir : ∀ e ∈ entries, e.isDir = true)
    (Husable : ∀ e ∈ entries, hasTaskFiles e = true)
    (Hdig : ∀ e ∈ entries, (sortKey e.name).isLeft = true)
    (Hnd : (entries.map Entry.name).Nodup)
    (Hfresh : ∀ e ∈ entries, ∀ j, j < entries.length → e.name ≠ pad5 (start + j)) :
    (Utils.rename_samples entries start).1 =
      Except.ok ((List.range' start entries.length).map pad5) := by
  have hlen : countEntriesUsable entries = entries.length := by
    rw [countEntriesUsable, List.countP_eq_length]
    intro e he
    rw [Hdir e he, Husable e he]
    rfl
  have hspec := rename_samples_core_spec true entries start Hdir Hdig Hnd (Or.inl rfl)
    (by
      intro e he k hk1 hk2
      rw [hlen] at hk2
      have : start + (k - start) = k := by omega
      rw [← this]
      exact Hfresh e he (k - start) (by omega))
  rw [show Utils.rename_samples entries start = rename_samples_core true entries start
    from rfl]
  rw [hspec.1, hlen]

/-- C3 (amended): given a domain-task directory whose entries are usable
sample subdirectories with digit-bearing, distinct names, none of which is
itself one of the zero-padded target IDs (otherwise a rename collision
raises OSError), `rename_samples(dir, start)` returns exactly the
zero-padded IDs `start, ..., start + N - 1` in that order — for every
listing order, so the output is independent of the filesystem's directory
listing order — and the directories are processed in non-decreasing order
of the last run of digits in their local names. -/
theorem claim3_rename_determinism (entries : List Entry) (start : Nat)
    (Hdir : ∀ e ∈ entries, e.isDir = true)
    (Husable : ∀ e ∈ entries, hasTaskFiles e = true)
    (Hdig : ∀ e ∈ entries, (sortKey e.name).isLeft = true)
    (Hnd : (entries.map Entry.name).Nodup)
    (Hfresh : ∀ e ∈ entries, ∀ j, j < entries.length → e.name ≠ pad5 (start + j)) :
    (Utils.rename_samples entries start).1 =
        Except.ok ((List.range' start entries.length).map pad5)
      ∧ List.Pairwise (fun e1 e2 => natKeyOf e1 ≤ natKeyOf e2)
          (List.insertionSort entryLe entries)
      ∧ sortEntries entries = Except.ok (List.insertionSort entryLe entries) :=
  ⟨rename_ids_range entries start Hdir Husable Hdig Hnd Hfresh,
   insertionSort_key_monotone entries Hdig, sortEntries_ok Hdig⟩

/-- C5, as written, fails on the code: a sample directory that contains only
`metadata.json` has zero recognized content files, yet `rename_samples` does
not delete it — `Path.rmdir` fails on a non-empty directory.  The utils.py
variant swallows the failure and leaves the directory on disk (while still
excluding it from the returned list); the validator variant propagates the
OSError. -/
theorem claim5_counterexample :
    Utils.rename_samples [⟨"sample_1", true, ["metadata.json"]⟩] 0 =
        (Except.ok [], [⟨"sample_1", true, ["metadata.json"]⟩])
      ∧ Validator.rename_samples [⟨"sample_1", true, ["metadata.json"]⟩] 0 =
        (Except.error PyError.osError, [⟨"sample_1", true, ["metadata.json"]⟩]) :=
  ⟨rfl, rfl⟩

/-- C5 (amended): a sample directory with zero recognized content files is
never assigned a global ID — its name never appears in the returned list —
and it is deleted from disk exactly when it is empty; a non-empty directory
with no recognized content files survives the swallowed rmdir failure
(utils.py variant).  Stated for listings whose names are digit-bearing,
distinct and collision-free. -/
theorem claim5_empty_dir_exclusion (entries : List Entry) (start : Nat)
    (Hdir : ∀ e ∈ entries, e.isDir = true)
    (Hdig : ∀ e ∈ entries, (sortKey e.name).isLeft = true)
    (Hnd : (entries.map Entry.name).Nodup)
    (Hfresh : ∀ e ∈ entries, ∀ j, j < countEntriesUsable entries →
      e.name ≠ pad5 (start + j)) :
    (Utils.rename_samples entries start).1 =
        Except.ok ((List.range' start (countEntriesUsable entries)).map pad5)
      ∧ (∀ e ∈ entries, hasTaskFiles e = false →
          e.name ∉ (List.range' start (countEntriesUsable entries)).map pad5
          ∧ (e.files = [] →
              findEntry (Utils.rename_samples entries start).2 e.name = none)) := by
  have hfresh2 : ∀ e ∈ entries, ∀ k, start ≤ k →
      k < start + countEntriesUsable entries → e.name ≠ pad5 k := by
    intro e he k hk1 hk2
    have : start + (k - start) = k := by omega
    rw [← this]
    exact Hfresh e he (k - start) (by omega)
  have hspec := rename_samples_core_spec true entries start Hdir Hdig Hnd (Or.inl rfl)
    hfresh2
  refine ⟨hspec.1, ?_⟩
  intro e he ht
  constructor
  · intro hmem
    obtain ⟨k, hk, hkeq⟩ := List.mem_map.mp hmem
    obtain ⟨i, hi, rfl⟩ := List.mem_range'.mp hk
    exact hfresh2 e he (start + 1 * i) (by omega) (by omega) hkeq.symm
  · intro hfe
    exact hspec.2 e he ht hfe

/-- C8, as written, fails on the code: Python `f"{n:05d}"` pads to a MINIMUM
width of five, so at `start_index = 100000` the single usable sample is
assigned the six-character ID "100000". -/
theorem claim8_counterexample :
    (Utils.rename_samples [⟨"task_1", true, ["a.png"]⟩] 100000).1 =
        Except.ok ["100000"]
      ∧ ("100000" : String).length ≠ 5 :=
  ⟨rfl, by decide⟩

/-- C8 (amended): the global ID of the usable sample at local offset `k` is
the decimal of `start_index + k` zero-padded to a minimum width of five
characters; the ID length is exactly five whenever `start_index + k <
100000` (in particular whenever `start_index + N <= 100000`), and longer
otherwise. -/
theorem claim8_id_width (entries : List Entry) (start : Nat)
    (Hdir : ∀ e ∈ entries, e.isDir = true)
    (Husable : ∀ e ∈ entries, hasTaskFiles e = true)
    (Hdig : ∀ e ∈ entries, (sortKey e.name).isLeft = true)
    (Hnd : (entries.map Entry.name).Nodup)
    (Hfresh : ∀ e ∈ entries, ∀ j, j < entries.length → e.name ≠ pad5 (start + j))
    (Hbound : start + entries.length ≤ 100000) :
    (Utils.rename_samples entries start).1 =
        Except.ok ((List.range' start entries.length).map pad5)
      ∧ (∀ sid ∈ (List.range' start entries.length).map pad5, sid.length = 5)
      ∧ (∀ j, j < entries.length →
          ((List.range' start entries.length).map pad5)[j]? = some (pad5 (start + j))) := by
  have hids := rename_ids_range entries start Hdir Husable Hdig Hnd Hfresh
  refine ⟨hids, ?_, ?_⟩
  · intro sid hmem
    obtain ⟨k, hk, rfl⟩ := List.mem_map.mp hmem
    obtain ⟨i, hi, rfl⟩ := List.mem_range'.mp hk
    exact pad5_length (by omega)
  · intro j hj
    rw [List.getElem?_map, List.getElem?_range' _ _ hj]
    simp

/-- C9: `rename_samples` is not total over its stated input domain: as soon as
the listing mixes a digit-bearing name with a digit-free name, the Python
sort key function returns an `int` for some entries and a `str` for others,
the sort comparison raises `TypeError` before any directory is renamed, and
both variants propagate it with the filesystem untouched. -/
theorem claim9_mixed_names_typeerror (entries : List Entry) (start : Nat)
    (H1 : ∃ e ∈ entries, (sortKey e.name).isLeft = true)
    (H2 : ∃ e ∈ entries, (sortKey e.name).isRight = true) :
    Utils.rename_samples entries start = (Except.error PyError.typeError, entries)
      ∧ Validator.rename_samples entries start =
          (Except.error PyError.typeError, entries) := by
  have hmix : mixedKeys entries = true := by
    rw [mixedKeys, Bool.and_eq_true, List.any_eq_true, List.any_eq_true]
    obtain ⟨e1, he1, h1⟩ := H1
    obtain ⟨e2, he2, h2⟩ := H2
    exact ⟨⟨e1, he1, h1⟩, ⟨e2, he2, h2⟩⟩
  have hsort : sortEntries entries = Except.error PyError.typeError := by
    rw [sortEntries, hmix]
    rfl
  constructor
  · rw [show Utils.rename_samples entries start = rename_samples_core true entries start
      from rfl, rename_samples_core, hsort]
  · rw [show Validator.rename_samples entries start =
      rename_samples_core false entries start from rfl, rename_samples_core, hsort]

theorem claim3_witness :
    (Utils.rename_samples
        [⟨"sample_0002", true, ["a.png"]⟩, ⟨"sample_0000", true, ["b.txt"]⟩,
         ⟨"sample_0001", true, ["c.mp4"]⟩] 100).1 =
      Except.ok ["00100", "00101", "00102"] := by
  have h := claim3_rename_determinism
    [⟨"sample_0002", true, ["a.png"]⟩, ⟨"sample_0000", true, ["b.txt"]⟩,
     ⟨"sample_0001", true, ["c.mp4"]⟩] 100
    (by decide) (by decide) (by decide) (by decide) (by decide)
  rw [h.1]
  rfl

theorem claim5_witness :
    (Utils.rename_samples [⟨"t1", true, []⟩, ⟨"t2", true, ["a.png"]⟩] 0).1 =
        Except.ok ["00000"]
      ∧ "t1" ∉ (["00000"] : List String)
      ∧ findEntry (Utils.rename_samples [⟨"t1", true, []⟩, ⟨"t2", true, ["a.png"]⟩] 0).2
          "t1" = none := by
  have h := claim5_empty_dir_exclusion [⟨"t1", true, []⟩, ⟨"t2", true, ["a.png"]⟩] 0
    (by decide) (by decide) (by decide) (by decide)
  have h2 := h.2 ⟨"t1", true, []⟩ (by decide) (by decide)
  refine ⟨by rw [h.1]; rfl, by decide, h2.2 rfl⟩

theorem claim8_witness :
    (Utils.rename_samples [⟨"task_1", true, ["a.png"]⟩] 99999).1 =
        Except.ok ["99999"]
      ∧ ("99999" : String).length = 5 := by
  have h := claim8_id_width [⟨"task_1", true, ["a.png"]⟩] 99999
    (by decide) (by decide) (by decide) (by decide) (by decide) (by decide)
  refine ⟨by rw [h.1]; rfl, ?_⟩
  exact h.2.1 "99999" (by decide)

theorem claim9_witness :
    Utils.rename_samples [⟨"abc", true, ["a.png"]⟩, ⟨"task_1", true, ["b.png"]⟩] 0 =
      (Except.error PyError.typeError,
       [⟨"abc", true, ["a.png"]⟩, ⟨"task_1", true, ["b.png"]⟩]) :=
  (claim9_mixed_names_typeerror
    [⟨"abc", true, ["a.png"]⟩, ⟨"task_1", true, ["b.png"]⟩] 0
    (by decide) (by decide)).1

/-! ### Dedup registry claims -/

theorem lookupReg_cons_self {reg : Registry} {g h s : String} :
    lookupReg ((g, h, s) :: reg) g h = some s := by
  simp [lookupReg]

/-- C1: starting from a registry with no row for `(g, h)`, the first
`check_and_register(g, h, s)` claims the key by conditional insert and
returns true; an immediately repeated registration by the same owning
sample id is idempotent and also returns true. -/
theorem claim1_idempotent_registration (reg : Registry) (g h s : String)
    (hfree : lookupReg reg g h = none) :
    (check_and_register reg g h s).1 = true
      ∧ (check_and_register (check_and_register reg g h s).2 g h s).1 = true := by
  rw [check_and_register, hfree]
  refine ⟨rfl, ?_⟩
  rw [check_and_register, lookupReg_cons_self]
  simp

theorem claim1_witness :
    (check_and_register [] "gen-1" "abcd1234abcd1234" "sample_0000").1 = true
      ∧ (check_and_register
          (check_and_register [] "gen-1" "abcd1234abcd1234" "sample_0000").2
          "gen-1" "abcd1234abcd1234" "sample_0000").1 = true :=
  claim1_idempotent_registration [] "gen-1" "abcd1234abcd1234" "sample_0000" rfl

/-- C2: after a sample `s0` claims `(g, h)`, a registration of the same key by
a different sample `s1` returns false (genuine duplicate), and the stored
owner for `(g, h)` remains `s0`. -/
theorem claim2_duplicate_detection (reg : Registry) (g h s0 s1 : String)
    (hfree : lookupReg reg g h = none) (hne : s0 ≠ s1) :
    (check_and_register reg g h s0).1 = true
      ∧ (check_and_register (check_and_register reg g h s0).2 g h s1).1 = false
      ∧ lookupReg (check_and_register (check_and_register reg g h s0).2 g h s1).2
          g h = some s0 := by
  rw [check_and_register, hfree]
  refine ⟨rfl, ?_, ?_⟩
  · rw [check_and_register, lookupReg_cons_self]
    simpa using hne
  · rw [check_and_register, lookupReg_cons_self]
    simp [lookupReg_cons_self]

theorem claim2_witness :
    (check_and_register [] "gen-1" "abcd1234abcd1234" "sample_0000").1 = true
      ∧ (check_and_register
          (check_and_register [] "gen-1" "abcd1234abcd1234" "sample_0000").2
          "gen-1" "abcd1234abcd1234" "sample_0001").1 = false
      ∧ lookupReg (check_and_register
          (check_and_register [] "gen-1" "abcd1234abcd1234" "sample_0000").2
          "gen-1" "abcd1234abcd1234" "sample_0001").2
          "gen-1" "abcd1234abcd1234" = some "sample_0000" :=
  claim2_duplicate_detection [] "gen-1" "abcd1234abcd1234" "sample_0000" "sample_0001"
    rfl (by decide)

/-! ### All-duplicates behavior of the dedup pipeline -/

theorem dedupRound_all_dup (g : String) (hashOf : String → Option String)
    (reg : Registry) (P : String → Prop)
    (Hdup : ∀ sid, P sid →
      ∃ hv o, hashOf sid = some hv ∧ lookupReg reg g hv = some o ∧ o ≠ sid) :
    ∀ ids, (∀ sid ∈ ids, P sid) → dedupRound g hashOf reg ids = ([], ids, reg) := by
  intro ids
  induction ids with
  | nil => intro _; rfl
  | cons sid rest ih =>
    intro hmem
    obtain ⟨hv, o, hhash, hlook, hne⟩ := Hdup sid (hmem sid (List.mem_cons_self sid rest))
    have hcr : check_and_register reg g hv sid = (false, reg) := by
      rw [check_and_register, hlook]
      simp [hne]
    rw [dedupRound, hhash]
    simp only [hcr, ih (fun s hs => hmem s (List.mem_cons_of_mem sid hs))]
    simp

theorem dedupLoop_all_dup (g : String) (hashes : Nat → String → Option String)
    (reg : Registry) (P : String → Prop)
    (Hdup : ∀ r sid, P sid →
      ∃ hv o, hashes r sid = some hv ∧ lookupReg reg g hv = some o ∧ o ≠ sid) :
    ∀ fuel round dups, (∀ sid ∈ dups, P sid) →
      dedupLoop g hashes fuel round [] dups reg = ([], reg) := by
  intro fuel
  induction fuel with
  | zero => intro round dups _; rfl
  | succ fuel ih =>
    intro round dups hmem
    rw [dedupLoop]
    by_cases hd : dups.isEmpty
    · rw [if_pos hd]
    · rw [if_neg hd, dedupRound_all_dup g (hashes round) reg P (Hdup round) dups hmem]
      exact ih (round + 1) dups hmem

theorem dedup_samples_all_dup (g : String) (hashes : Nat → String → Option String)
    (reg : Registry) (maxRounds : Nat) (P : String → Prop)
    (Hdup : ∀ r sid, P sid →
      ∃ hv o, hashes r sid = some hv ∧ lookupReg reg g hv = some o ∧ o ≠ sid) :
    ∀ ids, (∀ sid ∈ ids, P sid) →
      dedup_samples g hashes maxRounds ids reg = ([], reg) := by
  intro ids hmem
  rw [dedup_samples, dedupRound_all_dup g (hashes 0) reg P (Hdup 0) ids hmem]
  exact dedupLoop_all_dup g hashes reg P Hdup maxRounds 1 ids hmem

theorem process_batches_all_dup (g : String)
    (hashes : Nat → String → Option String) (reg : Registry) (maxRounds : Nat)
    (batches : List (List String))
    (Hdup : ∀ r sid, (∃ b ∈ batches, sid ∈ b) →
      ∃ hv o, hashes r sid = some hv ∧ lookupReg reg g hv = some o ∧ o ≠ sid) :
    ∀ bs : List (List String), (∀ b ∈ bs, b ∈ batches) →
      process_batches g hashes maxRounds true bs reg = ([], reg) := by
  intro bs
  induction bs with
  | nil => intro _; rfl
  | cons b rest ih =>
    intro hsub
    rw [process_batches]
    have hb : dedup_samples g hashes maxRounds b reg = ([], reg) :=
      dedup_samples_all_dup g hashes reg maxRounds
        (fun sid => ∃ b2 ∈ batches, sid ∈ b2) Hdup b
        (fun sid hs => ⟨b, hsub b (List.mem_cons_self b rest), hs⟩)
    have hrest := ih (fun b2 h2 => hsub b2 (List.mem_cons_of_mem b h2))
    simp [hb, hrest]

/-- C4: a task in which every produced sample (initially and in every
regeneration round) collides with a pre-existing registry entry owned by a
different sample completes successfully with `samples_uploaded = 0` and
`sample_ids = []` once the round limit is exhausted; only a run that
produced no usable renamed output at all raises a `ValueError`. -/
theorem claim4_all_duplicates_succeed_empty (g : String)
    (batches : List (List String)) (hashes : Nat → String → Option String)
    (reg : Registry) (maxRounds : Nat)
    (Hnonempty : ∃ b ∈ batches, b ≠ [])
    (Hdup : ∀ r sid, (∃ b ∈ batches, sid ∈ b) →
      ∃ hv o, hashes r sid = some hv ∧ lookupReg reg g hv = some o ∧ o ≠ sid) :
    process_samples_dedup g batches hashes reg true maxRounds = Except.ok (0, [])
      ∧ (∀ batches2 : List (List String), (∀ b ∈ batches2, b = []) →
          process_samples_dedup g batches2 hashes reg true maxRounds =
            Except.error PyError.valueError) := by
  constructor
  · have hall : batches.all List.isEmpty = false := by
      obtain ⟨b, hb, hbne⟩ := Hnonempty
      rw [Bool.eq_false_iff]
      intro hc
      rw [List.all_eq_true] at hc
      have := hc b hb
      rw [List.isEmpty_iff] at this
      exact hbne this
    rw [process_samples_dedup, hall]
    simp only [Bool.false_eq_true, if_false]
    rw [process_batches_all_dup g hashes reg maxRounds batches Hdup batches
      (fun b h => h)]
    rfl
  · intro batches2 hb2
    have hall2 : batches2.all List.isEmpty = true := by
      rw [List.all_eq_true]
      intro b hb
      rw [List.isEmpty_iff]
      exact hb2 b hb
    rw [process_samples_dedup, hall2]
    rfl

theorem claim4_witness :
    process_samples_dedup "g" [["00000", "00001"]] (fun _ _ => some "h")
        [("g", "h", "other")] true 3 = Except.ok (0, [])
      ∧ process_samples_dedup "g" [[], []] (fun _ _ => some "h")
        [("g", "h", "other")] true 3 = Except.error PyError.valueError := by
  have h := claim4_all_duplicates_succeed_empty "g" [["00000", "00001"]]
    (fun _ _ => some "h") [("g", "h", "other")] 3
    ⟨["00000", "00001"], by decide, by decide⟩
    (by
      intro r sid hmem
      refine ⟨"h", "other", rfl, rfl, ?_⟩
      obtain ⟨b, hb, hsb⟩ := hmem
      simp only [List.mem_singleton] at hb
      subst hb
      simp only [List.mem_cons, List.mem_singleton, List.not_mem_nil, or_false] at hsb
      rcases hsb with rfl | rfl <;> decide)
  exact ⟨h.1, h.2 [[], []] (by decide)⟩

/-! ### Uploader and validation claims -/

/-- C6: in tar output mode, for a non-empty batch of renamed samples, exactly
one archive object is produced, named
`{generator}_{start:05d}-{end:05d}.tar.gz` where start and end are the first
and last global IDs of the batch; zero individual per-sample object uploads
occur, and every per-sample upload count in the result is 0. -/
theorem claim6_tar_single_archive (fs : List Entry)
    (task_type task_folder : String) (start n : Nat) (hn : 0 < n) :
    S3Uploader.upload_samples fs ((List.range' start n).map pad5) task_type
        task_folder start "tar" =
      (((List.range' start n).map pad5).map (fun sid => ⟨sid, 0⟩),
       some (task_type ++ "_" ++ pad5 start ++ "-" ++ pad5 (start + n - 1) ++ ".tar.gz"),
       ["questions/" ++
         (task_type ++ "_" ++ pad5 start ++ "-" ++ pad5 (start + n - 1) ++ ".tar.gz")])
      ∧ ((List.range' start n).map pad5).head? = some (pad5 start)
      ∧ ((List.range' start n).map pad5).getLast? = some (pad5 (start + n - 1)) := by
  obtain ⟨m, rfl⟩ : ∃ m, n = m + 1 := ⟨n - 1, by omega⟩
  have hname : tarFilename task_type start ((List.range' start (m + 1)).map pad5).length
      = task_type ++ "_" ++ pad5 start ++ "-" ++ pad5 (start + (m + 1) - 1) ++ ".tar.gz" := by
    rw [tarFilename]
    have hlen : ((List.range' start (m + 1)).map pad5).length = m + 1 := by simp
    rw [hlen, pad5Int, if_neg (by omega)]
    have htn : ((start : Int) + (m + 1 : Nat) - 1).toNat = start + (m + 1) - 1 := by omega
    rw [htn]
  refine ⟨?_, ?_, ?_⟩
  · rw [S3Uploader.upload_samples, if_pos (by rfl), hname]
  · rw [List.range'_succ]
    simp
  · rw [List.range'_concat, List.map_append]
    simp only [List.map_cons, List.map_nil, List.getLast?_concat]
    congr 2
    omega

theorem claim6_witness :
    S3Uploader.upload_samples [] ["00000", "00001", "00002"] "gen" "obj_task"
        0 "tar" =
      ([⟨"00000", 0⟩, ⟨"00001", 0⟩, ⟨"00002", 0⟩],
       some "gen_00000-00002.tar.gz",
       ["questions/gen_00000-00002.tar.gz"])
      ∧ (["00000", "00001", "00002"] : List String).head? = some "00000"
      ∧ (["00000", "00001", "00002"] : List String).getLast? = some "00002" := by
  have hlist : (List.range' 0 3).map pad5 = ["00000", "00001", "00002"] := by decide
  have h := claim6_tar_single_archive [] "gen" "obj_task" 0 3 (by decide)
  rw [hlist] at h
  refine ⟨?_, h.2.1, h.2.2⟩
  rw [h.1]
  rfl

theorem validate_ok_facts {r : RawTask} {t : TaskMessage}
    (h : TaskMessage.validate r = Except.ok t) :
    (∀ n, r.num_samples? = some n → 0 < n ∧ n ≤ 1000)
      ∧ (∀ i, r.start_index? = some i → 0 ≤ i)
      ∧ (∀ f, r.output_format? = some f → f = "files" ∨ f = "tar") := by
  rcases hty : r.type? with _ | t0
  · rw [TaskMessage.validate] at h
    simp only [hty] at h
    simp at h
  · rcases hn : r.num_samples? with _ | n0
    · rw [TaskMessage.validate] at h
      simp only [hty, hn] at h
      split_ifs at h
    · rw [TaskMessage.validate] at h
      simp only [hty, hn] at h
      split_ifs at h with h1 h2 h3 h4 h5
      all_goals simp at h
      refine ⟨?_, ?_, ?_⟩
      · intro n hn2
        injection hn2 with hn2
        subst hn2
        omega
      · intro i hi
        rw [hi] at h3
        simp only [Option.getD_some] at h3
        omega
      · intro f hf
        have h5b : formatValid (r.output_format?.getD "files") = true := by
          cases hfv : formatValid (r.output_format?.getD "files")
          · exact absurd hfv h5
          · rfl
        rw [hf] at h5b
        simp only [Option.getD_some, formatValid, Bool.or_eq_true, beq_iff_eq] at h5b
        exact h5b

/-- C7: an incoming task message violating `num_samples > 0` (or the validated
bound of 1000), `start_index >= 0`, or `output_format ∈ {files, tar}` fails
Pydantic validation before any generator subprocess is started: the handler
emits no events (in particular no `generatorRun`) and returns the
validation error. -/
theorem claim7_validation_before_subprocess (r : RawTask)
    (runGen : TaskMessage → List Event)
    (H : (∃ n, r.num_samples? = some n ∧ (n ≤ 0 ∨ 1000 < n))
       ∨ (∃ i, r.start_index? = some i ∧ i < 0)
       ∨ (∃ f, r.output_format? = some f ∧ f ≠ "files" ∧ f ≠ "tar")) :
    (handler_record r runGen).1 = []
      ∧ ∃ er, (handler_record r runGen).2 = Except.error er := by
  cases hv : TaskMessage.validate r with
  | error e =>
    rw [handler_record, hv]
    exact ⟨rfl, e, rfl⟩
  | ok t =>
    exfalso
    obtain ⟨f1, f2, f3⟩ := validate_ok_facts hv
    rcases H with ⟨n, hn, hbad⟩ | ⟨i, hi, hbad⟩ | ⟨f, hf, hbad⟩
    · have := f1 n hn
      omega
    · have := f2 i hi
      omega
    · rcases f3 f hf with rfl | rfl
      · exact hbad.1 rfl
      · exact hbad.2 rfl

theorem claim7_witness :
    (handler_record ⟨some "gen", some 0, some 0, none, some "files", none⟩
        (fun _ => [])).1 = []
      ∧ ∃ er, (handler_record ⟨some "gen", some 0, some 0, none, some "files", none⟩
        (fun _ => [])).2 = Except.error er :=
  claim7_validation_before_subprocess
    ⟨some "gen", some 0, some 0, none, some "files", none⟩ (fun _ => [])
    (Or.inl ⟨0, rfl, Or.inl (by norm_num)⟩)

theorem found_map_fst (fs : List Entry) (renamed : List String) :
    ((renamed.filterMap
        (fun sid => (findEntry fs sid).map (fun e => (sid, e)))).map Prod.fst)
      = renamed.filter (fun sid => (findEntry fs sid).isSome) := by
  induction renamed with
  | nil => rfl
  | cons a rest ih =>
    rw [List.filterMap_cons, List.filter_cons]
    cases h : findEntry fs a
    · simp only [h, Option.map_none', Option.isSome_none]
      simpa using ih
    · simp only [h, Option.map_some', Option.isSome_some, List.map_cons]
      simpa using ih

/-- C10: in files output mode, a sample ID whose directory no longer exists at
upload time is silently skipped: the returned uploaded list is exactly the
renamed IDs whose directory is still present (no error value exists on this
path), so `samples_uploaded` can be strictly smaller than the number of
renamed samples, as the concrete instance shows. -/
theorem claim10_files_mode_skips_missing :
    (∀ (fs : List Entry) (renamed : List String) (t folder : String) (start : Nat),
      ((S3Uploader.upload_samples fs renamed t folder start "files").1.map
          UploadEntry.sample_id
        = renamed.filter (fun sid => (findEntry fs sid).isSome))
      ∧ (S3Uploader.upload_samples fs renamed t folder start "files").2.1 = none)
    ∧ ((S3Uploader.upload_samples [⟨"00000", true, ["a.png"]⟩]
          ["00000", "00001"] "g" "t_task" 0 "files").1.length = 1
        ∧ (["00000", "00001"] : List String).length = 2) := by
  constructor
  · intro fs renamed t folder start
    constructor
    · rw [S3Uploader.upload_samples, if_neg (by decide)]
      simp only [List.map_map]
      exact found_map_fst fs renamed
    · rw [S3Uploader.upload_samples, if_neg (by decide)]
  · exact ⟨rfl, rfl⟩
